import Mathlib

/-!
Verification of the PDP (Provable Data Possession) key-management core
(`pdp-keys.c`) and the cluster `adder` glue (`adder/adder.go`) of this
repository.

Bytes are modelled as `Nat` values (< 256 where the C type is
`unsigned char`); byte buffers are `List Nat`.  External cryptographic
primitives (OpenSSL AES block encryption, HMAC-SHA1, PEM private/public key
serialization, RSA key checking) are parameters of the embedding, constrained
only by the contracts the C code relies on.  Everything else — the NIST key
wrap/unwrap round structure, the PBKDF2 construction, the key-store file
layout and the adder control flow — is translated from the source.
-/

namespace PdpSpec

/-- All entries of a byte buffer fit in an unsigned char. -/
def GoodBytes (l : List Nat) : Prop := ∀ x ∈ l, x < 256

instance (l : List Nat) : Decidable (GoodBytes l) :=
  inferInstanceAs (Decidable (∀ x ∈ l, x < 256))

/-- Byte-wise XOR of two buffers (`T[k] ^= U[k]` loops in `pdp-keys.c`;
both operands are `unsigned char`, so no truncation occurs). -/
def xorBytes (a b : List Nat) : List Nat := List.zipWith (fun x y => x ^^^ y) a b

/-- `htonl`: the four big-endian bytes of a 32-bit integer
(`pdp-keys.c:316-318`). -/
def be32 (i : Nat) : List Nat :=
  [i / 2 ^ 24 % 256, i / 2 ^ 16 % 256, i / 2 ^ 8 % 256, i % 256]

/-- Minimal big-endian byte encoding of a `BIGNUM` (`BN_bn2bin`). -/
def natToBE : Nat → List Nat
  | 0 => []
  | n + 1 => natToBE ((n + 1) / 256) ++ [(n + 1) % 256]
decreasing_by exact Nat.div_lt_self (Nat.succ_pos n) (by omega)

/-- Big-endian byte decoding of a `BIGNUM` (`BN_bin2bn`). -/
def beToNat (l : List Nat) : Nat := l.foldl (fun a b => a * 256 + b) 0

/-- Split a flat byte array into consecutive 64-bit (8-byte) registers, as the
key-wrap code addresses `r_array + (i*8)`. -/
def chunk8 (l : List Nat) : List (List Nat) :=
  if h : l = [] then [] else l.take 8 :: chunk8 (l.drop 8)
termination_by l.length
decreasing_by
  simp only [List.length_drop]
  have := List.length_pos.mpr h
  omega

/-! ## NIST AES Key Wrap (`nist_key_wrap`, `pdp-keys.c:58-129`;
`nist_key_unwrap`, `pdp-keys.c:138-214`)

The AES block operation under a given KEK is a parameter
`enc, dec : List Nat → List Nat` (already keyed); `AES_set_encrypt_key`
succeeds exactly when the KEK is 128/192/256 bits. -/

/-- Valid KEK byte sizes: `AES_set_encrypt_key(kek, kek_size*8, ...)`
returns 0 only for 128/192/256-bit keys. -/
def ValidKekSize (kek : List Nat) : Prop :=
  kek.length = 16 ∨ kek.length = 24 ∨ kek.length = 32

instance (kek : List Nat) : Decidable (ValidKekSize kek) :=
  inferInstanceAs (Decidable (_ ∨ _ ∨ _))

/-- One inner iteration of the wrap loop (`pdp-keys.c:90-110`): encrypt
`A ‖ R_i`, the high 64 bits become `A` with `A[7] ^= t` (`t = n*j + i + 1`,
assignment to `unsigned char` truncates mod 256), the low 64 bits replace
`R_i`. -/
def wrapStep (enc : List Nat → List Nat) (n j : Nat)
    (st : List Nat × List (List Nat)) (i : Nat) : List Nat × List (List Nat) :=
  let out := enc (st.1 ++ st.2.getD i [])
  let A1 := out.take 8
  let t := n * j + (i + 1)
  (A1.set 7 ((A1.getD 7 0 ^^^ t) % 256), st.2.set i (out.drop 8))

/-- Inner loop `for i = 0 .. n-1` of the wrap (`pdp-keys.c:90`). -/
def wrapInner (enc : List Nat → List Nat) (n j : Nat)
    (st : List Nat × List (List Nat)) : List Nat × List (List Nat) :=
  (List.range n).foldl (wrapStep enc n j) st

/-- Outer loop `for j = 0 .. 5` of the wrap (`pdp-keys.c:89`). -/
def wrapRounds (enc : List Nat → List Nat) (n : Nat)
    (st : List Nat × List (List Nat)) : List Nat × List (List Nat) :=
  (List.range 6).foldl (fun s j => wrapInner enc n j s) st

/-- `nist_key_wrap` (`pdp-keys.c:58-129`): `n = key_size/8` 64-bit registers
are taken from the key (any remainder bytes are ignored by the integer
division), `A` starts as eight `0xA6` bytes, six rounds run, and the
ciphertext is `A ‖ R_1 ‖ … ‖ R_n`.  Failure (`NULL`) occurs for an invalid
KEK size (`AES_set_encrypt_key`); NULL-pointer and `malloc` failures have no
counterpart on lists. -/
def nist_key_wrap (aesEnc : List Nat → List Nat → List Nat)
    (key kek : List Nat) : Option (List Nat) :=
  if ValidKekSize kek then
    let n := key.length / 8
    let st := wrapRounds (aesEnc kek) n
      (List.replicate 8 0xA6, chunk8 (key.take (8 * n)))
    some (st.1 ++ st.2.flatten)
  else none

/-- One inner iteration of the unwrap loop (`pdp-keys.c:174-194`):
`A[7] ^= t` first, then decrypt `A ‖ R_i`; high 64 bits become `A`, low
64 bits replace `R_i`. -/
def unwrapStep (dec : List Nat → List Nat) (n j : Nat)
    (st : List Nat × List (List Nat)) (i : Nat) : List Nat × List (List Nat) :=
  let t := n * j + (i + 1)
  let A1 := st.1.set 7 ((st.1.getD 7 0 ^^^ t) % 256)
  let out := dec (A1 ++ st.2.getD i [])
  (out.take 8, st.2.set i (out.drop 8))

/-- Inner loop `for i = n-1 .. 0` of the unwrap (`pdp-keys.c:174`). -/
def unwrapInner (dec : List Nat → List Nat) (n j : Nat)
    (st : List Nat × List (List Nat)) : List Nat × List (List Nat) :=
  (List.range n).reverse.foldl (unwrapStep dec n j) st

/-- Outer loop `for j = 5 .. 0` of the unwrap (`pdp-keys.c:173`). -/
def unwrapRounds (dec : List Nat → List Nat) (n : Nat)
    (st : List Nat × List (List Nat)) : List Nat × List (List Nat) :=
  (List.range 6).reverse.foldl (fun s j => unwrapInner dec n j s) st

/-- The integrity value recovered by the unwrap rounds, checked against the
`0xA6` pattern at `pdp-keys.c:198`. -/
def unwrapRecoveredA (aesDec : List Nat → List Nat → List Nat)
    (enckey kek : List Nat) : List Nat :=
  (unwrapRounds (aesDec kek) (enckey.length / 8 - 1)
    (enckey.take 8, chunk8 ((enckey.drop 8).take (8 * (enckey.length / 8 - 1))))).1

/-- `nist_key_unwrap` (`pdp-keys.c:138-214`): `n = enckey_size/8 - 1`
registers are loaded from the ciphertext tail, the six rounds are reversed,
and the result is returned only if the recovered `A` equals eight `0xA6`
bytes (`memcmp(A, A_check, 8)`, `pdp-keys.c:198`). -/
def nist_key_unwrap (aesDec : List Nat → List Nat → List Nat)
    (enckey kek : List Nat) : Option (List Nat) :=
  if ValidKekSize kek then
    let st := unwrapRounds (aesDec kek) (enckey.length / 8 - 1)
      (enckey.take 8, chunk8 ((enckey.drop 8).take (8 * (enckey.length / 8 - 1))))
    if st.1 = List.replicate 8 0xA6 then some st.2.flatten else none
  else none

/-! ## Key wrap/unwrap inversion -/

/-- Invariant of the wrap/unwrap register state: `A` is 8 bytes and the
`n` registers are 8 bytes each. -/
def GoodSt (n : Nat) (st : List Nat × List (List Nat)) : Prop :=
  st.1.length = 8 ∧ GoodBytes st.1 ∧ st.2.length = n ∧
    ∀ r ∈ st.2, r.length = 8 ∧ GoodBytes r

/-- Contract of the single-block AES primitive used by the key wrap:
decryption inverts encryption on 16-byte blocks (`AES_encrypt` /
`AES_decrypt` under the same KEK). -/
def BlockCipher (enc dec : List Nat → List Nat) : Prop :=
  ∀ b : List Nat, b.length = 16 → GoodBytes b →
    (enc b).length = 16 ∧ GoodBytes (enc b) ∧ dec (enc b) = b

/-! ## PBKDF2 (`PBKDF2_F`, `pdp-keys.c:299-341`; `PBKDF2`, `pdp-keys.c:345-390`)

`HMAC(EVP_sha1(), password, ...)` is a parameter
`prf : List Nat → List Nat → List Nat` producing `SHA_DIGEST_LENGTH = 20`
bytes. -/

/-- The PRF always outputs a 20-byte (SHA-1 sized) digest, as the code checks
via `U_len != SHA_DIGEST_LENGTH`. -/
def PrfLen (prf : List Nat → List Nat → List Nat) : Prop :=
  ∀ k m, (prf k m).length = 20

/-- One iteration of the `PBKDF2_F` loop body (`pdp-keys.c:324-330`): XOR the
current `U` into `T`, then advance `U = HMAC-SHA1(password, U)`. -/
def pbkdf2FStep (prf : List Nat → List Nat → List Nat) (password : List Nat)
    (TU : List Nat × List Nat) : List Nat × List Nat :=
  (xorBytes TU.1 TU.2, prf password TU.2)

/-- `m`-fold iteration of the `PBKDF2_F` loop body. -/
def frounds (prf : List Nat → List Nat → List Nat) (password : List Nat) :
    Nat → List Nat × List Nat → List Nat × List Nat
  | 0, TU => TU
  | m + 1, TU => frounds prf password m (pbkdf2FStep prf password TU)

/-- Body of `PBKDF2_F` after its input guard (`pdp-keys.c:315-332`):
`U_1 = PRF(P, S ‖ htonl(i))`; then `c` times `T ^= U; U = PRF(P, U)`;
finally `T ^= U` once more (the "final XOR" at `pdp-keys.c:332`). -/
def PBKDF2_F_core (prf : List Nat → List Nat → List Nat)
    (T password salt : List Nat) (c i : Nat) : List Nat :=
  let U1 := prf password (salt ++ be32 i)
  let p := (List.range c).foldl (fun TU _ => pbkdf2FStep prf password TU) (T, U1)
  xorBytes p.1 p.2

/-- `PBKDF2_F` (`pdp-keys.c:299-341`): fails (returns 0) iff password, salt
or iteration count is empty/zero (`pdp-keys.c:308`). -/
def PBKDF2_F (prf : List Nat → List Nat → List Nat)
    (T password salt : List Nat) (c i : Nat) : Option (List Nat) :=
  if password = [] ∨ salt = [] ∨ c = 0 then none
  else some (PBKDF2_F_core prf T password salt c i)

/-- `PBKDF2` (`pdp-keys.c:345-390`): guard at `pdp-keys.c:354`;
`l = ⌈dkey_len/20⌉` blocks produced by `PBKDF2_F` with block index
`i = 0 .. l-1` (`pdp-keys.c:370`); the accumulator `T` is only zeroed once,
before the block loop (`pdp-keys.c:359`), so it carries across blocks; the
concatenated blocks are truncated to `dkey_len`.  Under the top-level guard
the `PBKDF2_F` guard always holds, so the failure check at `pdp-keys.c:372`
cannot fire and `PBKDF2_F_core` is used directly. -/
def PBKDF2 (prf : List Nat → List Nat → List Nat) (password salt : List Nat)
    (c dkey_len : Nat) : Option (List Nat) :=
  if password = [] ∨ salt = [] ∨ c = 0 ∨ dkey_len = 0 then none
  else
    let l := dkey_len / 20 + if dkey_len % 20 = 0 then 0 else 1
    let p := (List.range l).foldl
      (fun (Ta : List Nat × List Nat) i =>
        let T := PBKDF2_F_core prf Ta.1 password salt c i
        (T, Ta.2 ++ T)) (List.replicate 20 0, [])
    some (p.2.take dkey_len)

/-- Modelled from the spec: one output block of the standard PBKDF2
construction — the XOR-accumulation of exactly `c` PRF rounds,
`T = U_1 ⊕ … ⊕ U_c` with `U_1 = PRF(P, S ‖ INT(i))` and
`U_{j+1} = PRF(P, U_j)`. -/
def stdBlock (prf : List Nat → List Nat → List Nat)
    (password salt : List Nat) (c i : Nat) : List Nat :=
  (frounds prf password c (List.replicate 20 0, prf password (salt ++ be32 i))).1

/-- Modelled from the spec: the standard PBKDF2-HMAC-SHA1 derived key —
`⌈dkLen/20⌉` independent blocks with 1-based block indices, concatenated and
truncated to `dkLen` (RFC 2898 construction referenced by the spec). -/
def PBKDF2_std (prf : List Nat → List Nat → List Nat)
    (password salt : List Nat) (c dkLen : Nat) : List Nat :=
  let l := dkLen / 20 + if dkLen % 20 = 0 then 0 else 1
  (((List.range l).map (fun i => stdBlock prf password salt c (i + 1))).flatten).take
    dkLen

/-- The accumulator value the code's block loop holds after `i` blocks:
block outputs are XOR-chained because `T` is never reset, and each block uses
`c+1` PRF rounds with a 0-based index. -/
def chainT (prf : List Nat → List Nat → List Nat)
    (password salt : List Nat) (c : Nat) : Nat → List Nat
  | 0 => List.replicate 20 0
  | i + 1 => xorBytes (chainT prf password salt c i) (stdBlock prf password salt c i)

/-! ## Key store (`pdp-keys.c`)

`PDP_key` (from `pdp.h`, declared by this repository but not in the snapshot)
holds the RSA keypair, the generator `g` (a `BIGNUM`, modelled as `Nat`) and
the PRF secret `v` (`PRF_KEY_SIZE` bytes).  The OpenSSL PEM/RSA primitives
are opaque parameters; `PRF_KEY_SIZE` (a `pdp.h` constant not in the
snapshot, ≤ 32 since `v` is padded into a 32-byte buffer at
`pdp-keys.c:710-711`) is a parameter as well, while `PRP_KEY_SIZE = 16`
follows from the code (the AES block buffers `aes_input`/`aes_output` are
`PRP_KEY_SIZE` bytes and hold 8+8 bytes). -/

structure PDP_key (RSA : Type) where
  rsa : RSA
  v : List Nat
  g : Nat
  deriving DecidableEq

/-- On-disk private key file (`pdp-keys.c:694-719`): PEM-PKCS8-encrypted RSA
private key, then `PRF_KEY_SIZE` salt bytes, then the 40-byte wrapped PRF
secret. -/
structure PrivFile (Blob : Type) where
  pem : Blob
  salt : List Nat
  enc_v : List Nat
  deriving DecidableEq

/-- On-disk public key file (`pdp-keys.c:722-730`): PEM RSA public key, then
`gen_size` (a `size_t`), then the raw big-endian generator bytes. -/
structure PubFile (Blob : Type) where
  pem : Blob
  gen_size : Nat
  gen : List Nat
  deriving DecidableEq

/-- The external primitives the key store is built on: OpenSSL PEM
serialization of RSA keys (password-protected for the private key),
`RSA_check_key`, the AES block cipher keyed by a KEK, HMAC-SHA1, and the
`PRF_KEY_SIZE` constant. -/
structure KSPrims (RSA Blob : Type) where
  pemWritePriv : RSA → List Nat → Blob
  pemReadPriv : Blob → List Nat → Option RSA
  pemWritePub : RSA → Blob
  pemReadPub : Blob → Option RSA
  rsaCheck : RSA → Bool
  aesEnc : List Nat → List Nat → List Nat
  aesDec : List Nat → List Nat → List Nat
  prf : List Nat → List Nat → List Nat
  prfKeySize : Nat

/-- Ghost events recording what the code does to secret-bearing buffers.
Buffer ids: 0 = `password`/`password1`, 1 = `password2`, 2 = the derived
key `dk`. -/
inductive MemOp where
  | fill (buf : Nat)
  | zero (buf : Nat)
  | alloc (buf : Nat)
  | releaseZeroed (buf : Nat)
  deriving DecidableEq

/-- Every `fill b` event is eventually followed by a `zero b` event. -/
def zeroFollowsFill (b : Nat) : List MemOp → Bool
  | [] => true
  | op :: tr =>
    (if op = MemOp.fill b then decide (MemOp.zero b ∈ tr) else true) &&
      zeroFollowsFill b tr

/-- Every `alloc b` event is eventually followed by a zeroing release
(`sfree`). -/
def releaseFollowsAlloc (b : Nat) : List MemOp → Bool
  | [] => true
  | op :: tr =>
    (if op = MemOp.alloc b then decide (MemOp.releaseZeroed b ∈ tr) else true) &&
      releaseFollowsAlloc b tr

/-- `write_pdp_keypair` (`pdp-keys.c:621-759`), with the filesystem calls
elided: the private file gets the password-encrypted PEM key, the random
salt and the NIST-wrapped padded PRF secret (`v` is copied into a zeroed
32-byte buffer, `pdp-keys.c:710`, and wrapped under the 16-byte
PBKDF2-derived KEK with 10000 iterations, `pdp-keys.c:706-711`); the public
file gets the public PEM key, `gen_size = BN_num_bytes(g)` and the raw
big-endian generator.  `BN_bn2bin` returns 0 (failure, `pdp-keys.c:729`)
exactly when `g = 0`.  The ghost trace records the `dk` lifecycle
(`sfree(dk, ...)` on both exits, `pdp-keys.c:736` and `pdp-keys.c:753`). -/
def write_pdp_keypair_full {RSA Blob : Type} (P : KSPrims RSA Blob)
    (key : PDP_key RSA) (password salt : List Nat) :
    Option (PrivFile Blob × PubFile Blob) × List MemOp :=
  match PBKDF2 P.prf password salt 10000 16 with
  | none => (none, [])
  | some dk =>
    let key_v := key.v.take P.prfKeySize ++ List.replicate (32 - P.prfKeySize) 0
    match nist_key_wrap P.aesEnc key_v dk with
    | none => (none, [MemOp.alloc 2, MemOp.releaseZeroed 2])
    | some enc_v =>
      if key.g = 0 then (none, [MemOp.alloc 2, MemOp.releaseZeroed 2])
      else
        (some (⟨P.pemWritePriv key.rsa password, salt, enc_v⟩,
          ⟨P.pemWritePub key.rsa, (natToBE key.g).length, natToBE key.g⟩),
          [MemOp.alloc 2, MemOp.releaseZeroed 2])

/-- Value part of `write_pdp_keypair`. -/
def write_pdp_keypair {RSA Blob : Type} (P : KSPrims RSA Blob)
    (key : PDP_key RSA) (password salt : List Nat) :
    Option (PrivFile Blob × PubFile Blob) :=
  (write_pdp_keypair_full P key password salt).1

/-- `read_pdp_keypair` (`pdp-keys.c:397-501`).  The passphrase comes from the
terminal (`read_password`), modelled as an optional input; `none` is the
`read_password` failure path (`pdp-keys.c:434`).  The function decrypts the
PEM private key under the passphrase, checks the RSA key, re-derives the KEK
from the stored salt with PBKDF2 (10000 iterations, 16 bytes), unwraps the
40-byte wrapped secret, keeps its first `PRF_KEY_SIZE` bytes ( `memcpy` at
`pdp-keys.c:462`), reads the public PEM key (discarding it), and decodes the
generator with `BN_bin2bn` from `gen_size` bytes.  The ghost trace mirrors
the `memset(password, ...)` at `pdp-keys.c:456` (success path) and
`pdp-keys.c:488` (cleanup path), and `sfree(dk, ...)` at `pdp-keys.c:479`
and `pdp-keys.c:494`. -/
def read_pdp_keypair_full {RSA Blob : Type} (P : KSPrims RSA Blob)
    (priv : PrivFile Blob) (pub : PubFile Blob)
    (passwordOpt : Option (List Nat)) :
    Option (PDP_key RSA) × List MemOp :=
  match passwordOpt with
  | none => (none, [MemOp.fill 0, MemOp.zero 0])
  | some password =>
    match P.pemReadPriv priv.pem password with
    | none => (none, [MemOp.fill 0, MemOp.zero 0])
    | some rsa =>
      if P.rsaCheck rsa then
        match PBKDF2 P.prf password priv.salt 10000 16 with
        | none => (none, [MemOp.fill 0, MemOp.zero 0])
        | some dk =>
          match nist_key_unwrap P.aesDec priv.enc_v dk with
          | none => (none, [MemOp.fill 0, MemOp.alloc 2, MemOp.zero 0,
              MemOp.zero 0, MemOp.releaseZeroed 2])
          | some key_v =>
            match P.pemReadPub pub.pem with
            | none => (none, [MemOp.fill 0, MemOp.alloc 2, MemOp.zero 0,
                MemOp.zero 0, MemOp.releaseZeroed 2])
            | some _ =>
              (some ⟨rsa, key_v.take P.prfKeySize,
                beToNat (pub.gen.take pub.gen_size)⟩,
                [MemOp.fill 0, MemOp.alloc 2, MemOp.zero 0,
                  MemOp.releaseZeroed 2])
      else (none, [MemOp.fill 0, MemOp.zero 0])

/-- Value part of `read_pdp_keypair`. -/
def read_pdp_keypair {RSA Blob : Type} (P : KSPrims RSA Blob)
    (priv : PrivFile Blob) (pub : PubFile Blob)
    (passwordOpt : Option (List Nat)) : Option (PDP_key RSA) :=
  (read_pdp_keypair_full P priv pub passwordOpt).1

/-- `read_pdp_keypair_temp` (`pdp-keys.c:507-612`): identical to
`read_pdp_keypair` except that the passphrase arrives as the `password_in`
parameter (`strcpy`, `pdp-keys.c:545`) and is immediately printed to stdout
(`fprintf(stdout, "Password in read pdp keypair:%s\n", password)`,
`pdp-keys.c:546`) before any key derivation.  The stdout trace records the
byte strings written to stdout that contain the passphrase. -/
def read_pdp_keypair_temp_full {RSA Blob : Type} (P : KSPrims RSA Blob)
    (priv : PrivFile Blob) (pub : PubFile Blob) (password_in : List Nat) :
    Option (PDP_key RSA) × List MemOp × List (List Nat) :=
  let stdout := [password_in]
  match P.pemReadPriv priv.pem password_in with
  | none => (none, [MemOp.fill 0, MemOp.zero 0], stdout)
  | some rsa =>
    if P.rsaCheck rsa then
      match PBKDF2 P.prf password_in priv.salt 10000 16 with
      | none => (none, [MemOp.fill 0, MemOp.zero 0], stdout)
      | some dk =>
        match nist_key_unwrap P.aesDec priv.enc_v dk with
        | none => (none, [MemOp.fill 0, MemOp.alloc 2, MemOp.zero 0,
            MemOp.zero 0, MemOp.releaseZeroed 2], stdout)
        | some key_v =>
          match P.pemReadPub pub.pem with
          | none => (none, [MemOp.fill 0, MemOp.alloc 2, MemOp.zero 0,
              MemOp.zero 0, MemOp.releaseZeroed 2], stdout)
          | some _ =>
            (some ⟨rsa, key_v.take P.prfKeySize,
              beToNat (pub.gen.take pub.gen_size)⟩,
              [MemOp.fill 0, MemOp.alloc 2, MemOp.zero 0,
                MemOp.releaseZeroed 2], stdout)
    else (none, [MemOp.fill 0, MemOp.zero 0], stdout)

/-- `pdp_create_new_keypair` (`pdp-keys.c:764-842`): reads passphrase pairs
from the terminal until they match (`attempts` is the sequence the terminal
would deliver; an empty list is a `read_password` failure, `pdp-keys.c:797`),
zeroes and retries on mismatch (`pdp-keys.c:801-804`), then generates a key
(`generate_pdp_key`, modelled as an optional input since it draws on OpenSSL
randomness) and writes it to disk.  The ghost trace mirrors the `memset`s of
`password1`/`password2` on the mismatch path (`pdp-keys.c:802-803`), success
path (`pdp-keys.c:813`, `pdp-keys.c:827`) and cleanup path
(`pdp-keys.c:838-839`), plus the `dk` events inside `write_pdp_keypair`. -/
def pdp_create_new_keypair_full {RSA Blob : Type} (P : KSPrims RSA Blob)
    (genKey : Option (PDP_key RSA)) (salt : List Nat) :
    List (List Nat × List Nat) → Option (PDP_key RSA) × List MemOp
  | [] => (none, [MemOp.zero 0, MemOp.zero 1])
  | (p1, p2) :: attempts =>
    if p1 ≠ p2 then
      let rest := pdp_create_new_keypair_full P genKey salt attempts
      (rest.1, MemOp.fill 0 :: MemOp.fill 1 :: MemOp.zero 0 :: MemOp.zero 1 ::
        rest.2)
    else
      match genKey with
      | none => (none, [MemOp.fill 0, MemOp.fill 1, MemOp.zero 1,
          MemOp.zero 0, MemOp.zero 1])
      | some key =>
        let w := write_pdp_keypair_full P key p1 salt
        match w.1 with
        | none => (none, [MemOp.fill 0, MemOp.fill 1, MemOp.zero 1] ++ w.2 ++
            [MemOp.zero 0, MemOp.zero 1])
        | some _ => (some key, [MemOp.fill 0, MemOp.fill 1, MemOp.zero 1] ++
            w.2 ++ [MemOp.zero 0])

/-! ## Cluster adder (`adder/adder.go`)

File names, paths, passphrases, CIDs and error payloads are opaque atoms
(`Nat`).  `pdp_tag_file` is the external C call, modelled by its result
`tagRes : Nat → Int`; `ipfsAdder.AddAllAndPin` and `dgs.Finalize` are
modelled by `addRes`/`finalizeRes`.  Context cancellation is a boolean
snapshot.  The event trace records the observable calls and log lines in
program order. -/

inductive AEvent where
  | logKeyPath (p : Nat)
  | logTagPath (p : Nat)
  | logPassword (pw : Nat)
  | logTagError (name : Nat)
  | logAddFile (name : Nat)
  | tagCall (name tagPath keyPath pw : Nat)
  | addPin (name : Nat)
  deriving DecidableEq

inductive GoErr where
  | ctxCanceled
  | setupError (code : Nat)
  | addError (code : Nat)
  | iterError (code : Nat)
  | finalizeError (code : Nat)
  | nilRoot
  deriving DecidableEq

/-- `(cid.Cid, error)` return pair; `cid = none` is `cid.Undef`,
`err = none` is a nil error. -/
structure GoResult where
  cid : Option Nat
  err : Option GoErr
  deriving DecidableEq

/-- `a.ctx.Err()`: nil unless the context has been cancelled. -/
def ctxErr (cancelled : Bool) : Option GoErr :=
  if cancelled then some GoErr.ctxCanceled else none

/-- The per-entry loop of `Adder.FromFiles` (`adder/adder.go:189-224`): for
each entry, `pdp_tag_file` is called (`adder/adder.go:207`); if it returns 1
the function logs and returns `(cid.Undef, a.ctx.Err())`
(`adder/adder.go:208-211`); otherwise the `select` returns early on a
cancelled context, else `AddAllAndPin` runs (`adder/adder.go:218`) and an
error there aborts with that error.  `Sum.inl` is an early `return`;
`Sum.inr` carries the last adder root out of a completed loop. -/
def fromFilesLoop (tagRes : Nat → Int) (addRes : Nat → Except Nat Nat)
    (cancelled : Bool) (tagPath keyPath pw : Nat) (lastRoot : Option Nat) :
    List Nat → List AEvent × (GoResult ⊕ Option Nat)
  | [] => ([], Sum.inr lastRoot)
  | name :: rest =>
    let evTag := AEvent.tagCall name tagPath keyPath pw
    if tagRes name = 1 then
      ([evTag, AEvent.logTagError name], Sum.inl ⟨none, ctxErr cancelled⟩)
    else if cancelled then
      ([evTag], Sum.inl ⟨none, ctxErr cancelled⟩)
    else
      match addRes name with
      | Except.error e =>
        ([evTag, AEvent.logAddFile name, AEvent.addPin name],
          Sum.inl ⟨none, some (GoErr.addError e)⟩)
      | Except.ok root =>
        let r := fromFilesLoop tagRes addRes cancelled tagPath keyPath pw
          (some root) rest
        (evTag :: AEvent.logAddFile name :: AEvent.addPin name :: r.1, r.2)

/-- `Adder.FromFiles` (`adder/adder.go:123-236`): an already-cancelled
context returns immediately (`adder/adder.go:127-129`); `setupErr` stands
for the `ipfsadd.NewAdder` / CID-version / hash-function failures
(`adder/adder.go:134-158`); then the key path, tag path and the passphrase
read from the passphrase file are logged at Info level
(`adder/adder.go:173-185`), the entry loop runs, and a completed loop is
finalized (`adder/adder.go:225-235`; a loop that never set `adderRoot`
would dereference nil in Go, modelled as the `nilRoot` error). -/
def fromFiles (tagRes : Nat → Int) (addRes : Nat → Except Nat Nat)
    (finalizeRes : Nat → Except Nat Nat) (cancelled : Bool)
    (setupErr : Option Nat) (keyPath tagPath pw : Nat) (iterErr : Option Nat)
    (entries : List Nat) : List AEvent × GoResult :=
  if cancelled then ([], ⟨none, ctxErr true⟩)
  else
    match setupErr with
    | some e => ([], ⟨none, some (GoErr.setupError e)⟩)
    | none =>
      let init := [AEvent.logKeyPath keyPath, AEvent.logTagPath tagPath,
        AEvent.logPassword pw]
      match fromFilesLoop tagRes addRes cancelled tagPath keyPath pw none
        entries with
      | (evs, Sum.inl r) => (init ++ evs, r)
      | (evs, Sum.inr lastRoot) =>
        match iterErr with
        | some e => (init ++ evs, ⟨none, some (GoErr.iterError e)⟩)
        | none =>
          match lastRoot with
          | none => (init ++ evs, ⟨none, some GoErr.nilRoot⟩)
          | some root =>
            match finalizeRes root with
            | Except.error e =>
              (init ++ evs, ⟨none, some (GoErr.finalizeError e)⟩)
            | Except.ok cluster => (init ++ evs, ⟨some cluster, none⟩)

/-- `Adder.FromFile` (`adder/adder.go:240-321`): same structure for a single
file — logs, one `pdp_tag_file` call (`adder/adder.go:300`), early return
`(cid.Undef, a.ctx.Err())` when it yields 1 (`adder/adder.go:301-304`),
otherwise `AddAllAndPin` and `Finalize`.  Unlike `FromFiles` there is no
`select` on the context before adding. -/
def fromFile (tagRes : Nat → Int) (addRes : Nat → Except Nat Nat)
    (finalizeRes : Nat → Except Nat Nat) (cancelled : Bool)
    (setupErr : Option Nat) (keyPath tagPath pw name : Nat) :
    List AEvent × GoResult :=
  if cancelled then ([], ⟨none, ctxErr true⟩)
  else
    match setupErr with
    | some e => ([], ⟨none, some (GoErr.setupError e)⟩)
    | none =>
      let init := [AEvent.logKeyPath keyPath, AEvent.logTagPath tagPath,
        AEvent.logPassword pw]
      let evTag := AEvent.tagCall name tagPath keyPath pw
      if tagRes name = 1 then
        (init ++ [evTag, AEvent.logTagError name], ⟨none, ctxErr cancelled⟩)
      else
        match addRes name with
        | Except.error e =>
          (init ++ [evTag, AEvent.logAddFile name, AEvent.addPin name],
            ⟨none, some (GoErr.addError e)⟩)
        | Except.ok root =>
          match finalizeRes root with
          | Except.error e =>
            (init ++ [evTag, AEvent.logAddFile name, AEvent.addPin name],
              ⟨none, some (GoErr.finalizeError e)⟩)
          | Except.ok cluster =>
            (init ++ [evTag, AEvent.logAddFile name, AEvent.addPin name],
              ⟨some cluster, none⟩)

/-- Concrete instantiation of the key-store primitives, used to exhibit the
key-store theorems on explicit inputs: PEM blobs are (key, password) pairs,
the AES block operation is the identity permutation, the PRF is constant. -/
def toyPrims : KSPrims Nat (Nat × List Nat) where
  pemWritePriv := fun r pw => (r, pw)
  pemReadPriv := fun b pw => if b.2 = pw then some b.1 else none
  pemWritePub := fun r => (r, [])
  pemReadPub := fun b => some b.1
  rsaCheck := fun _ => true
  aesEnc := fun _ b => b
  aesDec := fun _ b => b
  prf := fun _ _ => List.replicate 20 7
  prfKeySize := 20

/-- A concrete PDP key for the witnesses. -/
def toyKey : PDP_key Nat := ⟨5, List.replicate 20 1, 3⟩

/-! ## Claims -/

/-! ### Adder helper lemmas -/

/-- A concrete tag-result function: only file 5 fails tagging. -/
def tagToy : Nat → Int := fun n => if n = 5 then 1 else 0

/-! ## Theorems -/

/-! ## Generic fold-inversion lemmas -/

theorem foldl_preserves {α β : Type} (f : α → β → α) (P : α → Prop) :
    ∀ (l : List β) (a : α), (∀ x b, b ∈ l → P x → P (f x b)) → P a →
      P (l.foldl f a)
  | [], _, _, ha => ha
  | b :: l, a, hpres, ha =>
    foldl_preserves f P l (f a b)
      (fun x c hc hx => hpres x c (List.mem_cons_of_mem b hc) hx)
      (hpres a b (List.mem_cons_self b l) ha)

theorem foldl_reverse_foldl {α β : Type} (f g : α → β → α) (P : α → Prop) :
    ∀ (l : List β) (a : α), (∀ x b, b ∈ l → P x → P (f x b)) →
      (∀ x b, b ∈ l → P x → g (f x b) b = x) → P a →
      l.reverse.foldl g (l.foldl f a) = a
  | [], _, _, _, _ => rfl
  | b :: l, a, hpres, hinv, ha => by
    have hmem : ∀ x c, c ∈ l → P x → P (f x c) :=
      fun x c hc hx => hpres x c (List.mem_cons_of_mem b hc) hx
    have hb : P (f a b) := hpres a b (List.mem_cons_self b l) ha
    have ih := foldl_reverse_foldl f g P l (f a b) hmem
      (fun x c hc hx => hinv x c (List.mem_cons_of_mem b hc) hx) hb
    simp only [List.foldl_cons, List.reverse_cons, List.foldl_append,
      List.foldl_cons, List.foldl_nil]
    rw [ih]
    exact hinv a b (List.mem_cons_self b l) ha

/-! ## Byte-level helper lemmas -/

theorem byte_xor_undo {a : Nat} (t : Nat) (ha : a < 256) :
    ((a ^^^ t) % 256 ^^^ t) % 256 = a := by
  apply Nat.eq_of_testBit_eq
  intro i
  rcases lt_or_ge i 8 with hi | hi
  · have h256 : (256 : Nat) = 2 ^ 8 := by norm_num
    rw [h256, Nat.testBit_mod_two_pow, Nat.testBit_xor, Nat.testBit_mod_two_pow,
      Nat.testBit_xor]
    simp [hi, Bool.xor_assoc]
  · have h256 : (256 : Nat) = 2 ^ 8 := by norm_num
    have h1 : ((a ^^^ t) % 256 ^^^ t) % 256 < 2 ^ i := by
      calc ((a ^^^ t) % 256 ^^^ t) % 256 < 256 := Nat.mod_lt _ (by norm_num)
        _ = 2 ^ 8 := h256
        _ ≤ 2 ^ i := Nat.pow_le_pow_right (by norm_num) hi
    have h2 : a < 2 ^ i := by
      calc a < 256 := ha
        _ = 2 ^ 8 := h256
        _ ≤ 2 ^ i := Nat.pow_le_pow_right (by norm_num) hi
    rw [Nat.testBit_lt_two_pow h1, Nat.testBit_lt_two_pow h2]

theorem xor_lt_256 {a b : Nat} (ha : a < 256) (hb : b < 256) : a ^^^ b < 256 := by
  have h256 : (256 : Nat) = 2 ^ 8 := by norm_num
  rw [h256] at ha hb ⊢
  exact Nat.xor_lt_two_pow ha hb

/-- Setting an index to the value already there is the identity. -/
theorem list_set_getD_self {α : Type} (l : List α) (n : Nat) (d : α)
    (h : n < l.length) : l.set n (l.getD n d) = l := by
  apply List.ext_getElem
  · simp
  · intro i h1 h2
    rcases eq_or_ne n i with rfl | hne
    · rw [List.getElem_set_self (by simpa using h2)]
      simp [List.getD_eq_getElem?_getD, List.getElem?_eq_getElem h]
    · rw [List.getElem_set_ne hne]

theorem chunk8_nil : chunk8 [] = [] := by
  rw [chunk8]
  simp

theorem chunk8_cons (l : List Nat) (h : l ≠ []) :
    chunk8 l = l.take 8 :: chunk8 (l.drop 8) := by
  rw [chunk8]
  simp [h]

/-- Properties of `chunk8` on a buffer whose length is a multiple of 8. -/
theorem chunk8_spec : ∀ (k : Nat) (l : List Nat), l.length = 8 * k →
    (chunk8 l).length = k ∧ (chunk8 l).flatten = l ∧
      ∀ r ∈ chunk8 l, r.length = 8 ∧ ∀ x ∈ r, x ∈ l := by
  intro k
  induction k with
  | zero =>
    intro l hl
    have : l = [] := List.eq_nil_of_length_eq_zero (by omega)
    subst this
    simp [chunk8_nil]
  | succ k ih =>
    intro l hl
    have hne : l ≠ [] := by
      intro h
      subst h
      simp only [List.length_nil] at hl
      omega
    have hlen8 : 8 ≤ l.length := by omega
    have htake : (l.take 8).length = 8 := by
      simp [List.length_take]
      omega
    have hdrop : (l.drop 8).length = 8 * k := by
      simp [List.length_drop]
      omega
    obtain ⟨h1, h2, h3⟩ := ih (l.drop 8) hdrop
    rw [chunk8_cons l hne]
    refine ⟨by simp [h1], by simp [h2], ?_⟩
    intro r hr
    rcases List.mem_cons.mp hr with rfl | hr
    · exact ⟨htake, fun x hx => List.mem_of_mem_take hx⟩
    · exact ⟨(h3 r hr).1, fun x hx => List.mem_of_mem_drop ((h3 r hr).2 x hx)⟩

/-- `chunk8` splits a concatenation of 8-byte registers back apart. -/
theorem chunk8_flatten : ∀ (R : List (List Nat)), (∀ r ∈ R, r.length = 8) →
    chunk8 R.flatten = R
  | [], _ => by simp [chunk8_nil]
  | r :: R, h => by
    have hr : r.length = 8 := h r (List.mem_cons_self r R)
    have hne : (r :: R).flatten ≠ [] := by
      simp only [List.flatten_cons]
      intro hc
      have := congrArg List.length hc
      simp [hr] at this
    rw [List.flatten_cons, chunk8_cons _ (by simpa using hne)]
    have htake : (r ++ R.flatten).take 8 = r := by
      rw [← hr, List.take_left]
    have hdrop : (r ++ R.flatten).drop 8 = R.flatten := by
      rw [← hr, List.drop_left]
    rw [htake, hdrop, chunk8_flatten R (fun x hx => h x (List.mem_cons_of_mem r hx))]

theorem flatten_length_eight (R : List (List Nat)) (h : ∀ r ∈ R, r.length = 8) :
    R.flatten.length = 8 * R.length := by
  induction R with
  | nil => simp
  | cons r R ih =>
    simp only [List.flatten_cons, List.length_append, List.length_cons]
    rw [h r (List.mem_cons_self r R), ih (fun x hx => h x (List.mem_cons_of_mem r hx))]
    ring

theorem getD_set_self {α : Type} (l : List α) (n : Nat) (a d : α)
    (h : n < l.length) : (l.set n a).getD n d = a := by
  have h2 : n < (l.set n a).length := by simpa using h
  rw [List.getD_eq_getElem?_getD, List.getElem?_eq_getElem h2,
    List.getElem_set_self (by simpa using h)]
  rfl

theorem wrapStep_good {enc dec : List Nat → List Nat} (hc : BlockCipher enc dec)
    (n j : Nat) (st : List Nat × List (List Nat)) (hst : GoodSt n st)
    (i : Nat) (hi : i < n) : GoodSt n (wrapStep enc n j st i) := by
  obtain ⟨hA, hAb, hR, hRr⟩ := hst
  have hiR : i < st.2.length := by omega
  have hRi : st.2.getD i [] ∈ st.2 := by
    rw [List.getD_eq_getElem?_getD, List.getElem?_eq_getElem hiR]
    exact List.getElem_mem hiR
  obtain ⟨hRilen, hRib⟩ := hRr _ hRi
  have hin : (st.1 ++ st.2.getD i []).length = 16 := by
    rw [List.length_append, hA, hRilen]
  have hinb : GoodBytes (st.1 ++ st.2.getD i []) := by
    intro x hx
    rcases List.mem_append.mp hx with hx | hx
    · exact hAb x hx
    · exact hRib x hx
  obtain ⟨holen, hob, _⟩ := hc _ hin hinb
  refine ⟨?_, ?_, ?_, ?_⟩
  · simp only [wrapStep, List.length_set, List.length_take, holen]
    norm_num
  · intro x hx
    simp only [wrapStep] at hx
    rcases List.mem_or_eq_of_mem_set hx with hx | rfl
    · exact hob x (List.mem_of_mem_take hx)
    · exact Nat.mod_lt _ (by norm_num)
  · simp only [wrapStep, List.length_set, hR]
  · intro r hr
    simp only [wrapStep] at hr
    rcases List.mem_or_eq_of_mem_set hr with hr | rfl
    · exact hRr r hr
    · refine ⟨?_, fun x hx => hob x (List.mem_of_mem_drop hx)⟩
      simp only [List.length_drop, holen]

theorem unwrapStep_wrapStep {enc dec : List Nat → List Nat}
    (hc : BlockCipher enc dec) (n j : Nat) (st : List Nat × List (List Nat))
    (hst : GoodSt n st) (i : Nat) (hi : i < n) :
    unwrapStep dec n j (wrapStep enc n j st i) i = st := by
  obtain ⟨hA, hAb, hR, hRr⟩ := hst
  have hiR : i < st.2.length := by omega
  have hRi : st.2.getD i [] ∈ st.2 := by
    rw [List.getD_eq_getElem?_getD, List.getElem?_eq_getElem hiR]
    exact List.getElem_mem hiR
  obtain ⟨hRilen, hRib⟩ := hRr _ hRi
  have hin : (st.1 ++ st.2.getD i []).length = 16 := by
    rw [List.length_append, hA, hRilen]
  have hinb : GoodBytes (st.1 ++ st.2.getD i []) := by
    intro x hx
    rcases List.mem_append.mp hx with hx | hx
    · exact hAb x hx
    · exact hRib x hx
  obtain ⟨holen, hob, hdec⟩ := hc _ hin hinb
  set out := enc (st.1 ++ st.2.getD i []) with hout
  have htl : (out.take 8).length = 8 := by simp [holen]
  have h7 : (7 : Nat) < (out.take 8).length := by omega
  set a7 := (out.take 8).getD 7 0 with ha7
  have ha7lt : a7 < 256 := by
    rw [ha7, List.getD_eq_getElem?_getD, List.getElem?_eq_getElem h7]
    exact hob _ (List.mem_of_mem_take (List.getElem_mem h7))
  set t := n * j + (i + 1) with ht
  simp only [wrapStep, unwrapStep, ← hout, ← ha7, ← ht]
  have hW1get : (((out.take 8).set 7 ((a7 ^^^ t) % 256)).getD 7 0) = (a7 ^^^ t) % 256 :=
    getD_set_self _ 7 _ 0 h7
  have hW2get : ((st.2.set i (out.drop 8)).getD i []) = out.drop 8 :=
    getD_set_self _ i _ [] hiR
  have hsetself : (out.take 8).set 7 a7 = out.take 8 := by
    rw [ha7]
    exact list_set_getD_self _ 7 0 h7
  rw [hW1get, hW2get, byte_xor_undo t ha7lt, List.set_set, hsetself,
    List.take_append_drop, hdec]
  have htake : (st.1 ++ st.2.getD i []).take 8 = st.1 := by
    rw [← hA]
    exact List.take_left st.1 _
  have hdrop : (st.1 ++ st.2.getD i []).drop 8 = st.2.getD i [] := by
    rw [← hA]
    exact List.drop_left st.1 _
  rw [htake, hdrop, List.set_set, list_set_getD_self _ i [] hiR]

theorem wrapInner_good {enc dec : List Nat → List Nat} (hc : BlockCipher enc dec)
    (n j : Nat) (st : List Nat × List (List Nat)) (hst : GoodSt n st) :
    GoodSt n (wrapInner enc n j st) :=
  foldl_preserves _ (GoodSt n) (List.range n) st
    (fun x b hb hx => wrapStep_good hc n j x hx b (List.mem_range.mp hb)) hst

theorem unwrapInner_wrapInner {enc dec : List Nat → List Nat}
    (hc : BlockCipher enc dec) (n j : Nat) (st : List Nat × List (List Nat))
    (hst : GoodSt n st) : unwrapInner dec n j (wrapInner enc n j st) = st :=
  foldl_reverse_foldl (wrapStep enc n j) (unwrapStep dec n j) (GoodSt n)
    (List.range n) st
    (fun x b hb hx => wrapStep_good hc n j x hx b (List.mem_range.mp hb))
    (fun x b hb hx => unwrapStep_wrapStep hc n j x hx b (List.mem_range.mp hb)) hst

theorem wrapRounds_good {enc dec : List Nat → List Nat} (hc : BlockCipher enc dec)
    (n : Nat) (st : List Nat × List (List Nat)) (hst : GoodSt n st) :
    GoodSt n (wrapRounds enc n st) :=
  foldl_preserves _ (GoodSt n) (List.range 6) st
    (fun x b _ hx => wrapInner_good hc n b x hx) hst

theorem unwrapRounds_wrapRounds {enc dec : List Nat → List Nat}
    (hc : BlockCipher enc dec) (n : Nat) (st : List Nat × List (List Nat))
    (hst : GoodSt n st) : unwrapRounds dec n (wrapRounds enc n st) = st :=
  foldl_reverse_foldl (fun s j => wrapInner enc n j s)
    (fun s j => unwrapInner dec n j s) (GoodSt n) (List.range 6) st
    (fun x b _ hx => wrapInner_good hc n b x hx)
    (fun x b _ hx => unwrapInner_wrapInner hc n b x hx) hst

/-- Core round-trip of the NIST key wrap as implemented: on a key whose size
is a multiple of 8 bytes and a 128/192/256-bit KEK, unwrapping the wrapped
key recovers it, and the ciphertext is `key_size + 8` bytes. -/
theorem wrap_unwrap_roundtrip (aesEnc aesDec : List Nat → List Nat → List Nat)
    (key kek : List Nat) (hkek : ValidKekSize kek) (hlen : key.length % 8 = 0)
    (hkey : GoodBytes key) (hc : BlockCipher (aesEnc kek) (aesDec kek)) :
    ∃ c, nist_key_wrap aesEnc key kek = some c ∧ c.length = key.length + 8 ∧
      nist_key_unwrap aesDec c kek = some key := by
  set n := key.length / 8 with hn
  have h8n : 8 * n = key.length := by omega
  have htake : key.take (8 * n) = key := by
    rw [h8n]
    exact List.take_length key
  obtain ⟨hRlen, hRflat, hRmem⟩ := chunk8_spec n key (by omega)
  have hst0 : GoodSt n (List.replicate 8 0xA6, chunk8 key) := by
    refine ⟨by simp, ?_, by simpa using hRlen, ?_⟩
    · intro x hx
      rw [List.eq_of_mem_replicate hx]
      norm_num
    · exact fun r hr => ⟨(hRmem r hr).1, fun x hx => hkey x ((hRmem r hr).2 x hx)⟩
  set st1 := wrapRounds (aesEnc kek) n (List.replicate 8 0xA6, chunk8 key) with hst1
  have hst1g : GoodSt n st1 := wrapRounds_good hc n _ hst0
  obtain ⟨hA1, _, hR1, hRr1⟩ := hst1g
  have hflat : st1.2.flatten.length = 8 * n := by
    rw [flatten_length_eight st1.2 (fun r hr => (hRr1 r hr).1), hR1]
  refine ⟨st1.1 ++ st1.2.flatten, ?_, ?_, ?_⟩
  · simp only [nist_key_wrap, if_pos hkek, ← hn, htake, ← hst1]
  · simp [hA1, hflat]
    omega
  · have hclen : (st1.1 ++ st1.2.flatten).length = 8 * (n + 1) := by
      simp [hA1, hflat]
      ring
    have hn' : (st1.1 ++ st1.2.flatten).length / 8 - 1 = n := by
      rw [hclen, Nat.mul_div_cancel_left _ (by norm_num)]
      omega
    have htA : (st1.1 ++ st1.2.flatten).take 8 = st1.1 := by
      rw [← hA1]
      exact List.take_left st1.1 _
    have hdA : (st1.1 ++ st1.2.flatten).drop 8 = st1.2.flatten := by
      rw [← hA1]
      exact List.drop_left st1.1 _
    have htR : st1.2.flatten.take (8 * n) = st1.2.flatten := by
      rw [← hflat]
      exact List.take_length _
    simp only [nist_key_unwrap, if_pos hkek, hn', htA, hdA, htR,
      chunk8_flatten st1.2 (fun r hr => (hRr1 r hr).1)]
    rw [unwrapRounds_wrapRounds hc n _ hst0]
    simp [hRflat]

/-! ### PBKDF2 helper lemmas -/

theorem xorBytes_length (a b : List Nat) :
    (xorBytes a b).length = min a.length b.length := by
  simp [xorBytes]

theorem xorBytes_zero_left : ∀ b : List Nat,
    xorBytes (List.replicate b.length 0) b = b
  | [] => rfl
  | x :: b => by
    simp only [List.length_cons, List.replicate_succ, xorBytes,
      List.zipWith_cons_cons]
    rw [Nat.zero_xor]
    exact congrArg (List.cons x) (xorBytes_zero_left b)

theorem xorBytes_zero_right : ∀ a : List Nat,
    xorBytes a (List.replicate a.length 0) = a
  | [] => rfl
  | x :: a => by
    simp only [List.length_cons, List.replicate_succ, xorBytes,
      List.zipWith_cons_cons]
    rw [Nat.xor_zero]
    exact congrArg (List.cons x) (xorBytes_zero_right a)

theorem xorBytes_assoc : ∀ a b c : List Nat,
    xorBytes (xorBytes a b) c = xorBytes a (xorBytes b c)
  | [], _, _ => rfl
  | _ :: _, [], _ => rfl
  | _ :: _, _ :: _, [] => rfl
  | x :: a, y :: b, z :: c => by
    simp only [xorBytes, List.zipWith_cons_cons]
    rw [Nat.xor_assoc]
    exact congrArg (List.cons _) (xorBytes_assoc a b c)

/-- The `PBKDF2_F` loop is the iterated step function. -/
theorem pbkdf2F_foldl_eq_frounds (prf : List Nat → List Nat → List Nat)
    (password : List Nat) :
    ∀ (c : Nat) (TU : List Nat × List Nat),
      (List.range c).foldl (fun TU _ => pbkdf2FStep prf password TU) TU =
        frounds prf password c TU
  | 0, _ => rfl
  | c + 1, TU => by
    have hcomm : ∀ (m : Nat) (X : List Nat × List Nat),
        frounds prf password m (pbkdf2FStep prf password X) =
          pbkdf2FStep prf password (frounds prf password m X) := by
      intro m
      induction m with
      | zero => intro X; rfl
      | succ m ih => intro X; exact ih (pbkdf2FStep prf password X)
    rw [List.range_succ, List.foldl_append, List.foldl_cons, List.foldl_nil,
      pbkdf2F_foldl_eq_frounds prf password c TU]
    show pbkdf2FStep prf password (frounds prf password c TU) =
      frounds prf password c (pbkdf2FStep prf password TU)
    rw [hcomm]

/-- Peeling the final XOR: the code's `T` after the loop plus the final
`T ^= U` equals one more iteration of the step. -/
theorem frounds_fst_succ (prf : List Nat → List Nat → List Nat)
    (password : List Nat) :
    ∀ (c : Nat) (TU : List Nat × List Nat),
      xorBytes (frounds prf password c TU).1 (frounds prf password c TU).2 =
        (frounds prf password (c + 1) TU).1
  | 0, TU => rfl
  | c + 1, TU =>
    frounds_fst_succ prf password c (pbkdf2FStep prf password TU)

/-- Each output block of `PBKDF2_F` is the XOR-accumulation of `c + 1` PRF
rounds: the initial `U_1`, the `c` loop rounds, and the final extra XOR. -/
theorem PBKDF2_F_core_eq (prf : List Nat → List Nat → List Nat)
    (T password salt : List Nat) (c i : Nat) :
    PBKDF2_F_core prf T password salt c i =
      (frounds prf password (c + 1) (T, prf password (salt ++ be32 i))).1 := by
  simp only [PBKDF2_F_core]
  rw [pbkdf2F_foldl_eq_frounds]
  exact frounds_fst_succ prf password c _

theorem frounds_lengths (prf : List Nat → List Nat → List Nat)
    (password : List Nat) (hp : PrfLen prf) :
    ∀ (c : Nat) (TU : List Nat × List Nat), TU.1.length = 20 →
      TU.2.length = 20 →
      (frounds prf password c TU).1.length = 20 ∧
        (frounds prf password c TU).2.length = 20
  | 0, _, h1, h2 => ⟨h1, h2⟩
  | c + 1, TU, h1, h2 =>
    frounds_lengths prf password hp c (pbkdf2FStep prf password TU)
      (by simp [pbkdf2FStep, xorBytes_length, h1, h2]) (hp _ _)

/-- The initial accumulator can be split off: running the loop from `T`
equals `T ⊕` (running the loop from zero). -/
theorem frounds_fst_split (prf : List Nat → List Nat → List Nat)
    (password : List Nat) (hp : PrfLen prf) :
    ∀ (c : Nat) (T U : List Nat), T.length = 20 → U.length = 20 →
      (frounds prf password c (T, U)).1 =
        xorBytes T (frounds prf password c (List.replicate 20 0, U)).1
  | 0, T, U, hT, _ => by
    show T = xorBytes T (List.replicate 20 0)
    rw [← hT, xorBytes_zero_right]
  | c + 1, T, U, hT, hU => by
    show (frounds prf password c (xorBytes T U, prf password U)).1 =
      xorBytes T (frounds prf password c
        (xorBytes (List.replicate 20 0) U, prf password U)).1
    have hz : xorBytes (List.replicate 20 0) U = U := by
      rw [← hU]
      exact xorBytes_zero_left U
    rw [hz,
      frounds_fst_split prf password hp c (xorBytes T U) (prf password U)
        (by simp [xorBytes_length, hT, hU]) (hp _ _),
      frounds_fst_split prf password hp c U (prf password U) hU (hp _ _),
      xorBytes_assoc]

theorem stdBlock_length (prf : List Nat → List Nat → List Nat)
    (password salt : List Nat) (hp : PrfLen prf) (c i : Nat) :
    (stdBlock prf password salt c i).length = 20 :=
  (frounds_lengths prf password hp c _ (by simp) (hp _ _)).1

theorem chainT_length (prf : List Nat → List Nat → List Nat)
    (password salt : List Nat) (hp : PrfLen prf) (c : Nat) :
    ∀ i, (chainT prf password salt c i).length = 20
  | 0 => by simp [chainT]
  | i + 1 => by
    simp only [chainT, xorBytes_length,
      chainT_length prf password salt hp c i,
      stdBlock_length prf password salt hp c i]
    norm_num

/-- The code's block `i` output equals the chained XOR of `stdBlock` values
with `c+1` rounds. -/
theorem PBKDF2_F_core_chain (prf : List Nat → List Nat → List Nat)
    (password salt : List Nat) (hp : PrfLen prf) (c i : Nat) :
    PBKDF2_F_core prf (chainT prf password salt (c + 1) i) password salt c i =
      chainT prf password salt (c + 1) (i + 1) := by
  rw [PBKDF2_F_core_eq,
    frounds_fst_split prf password hp (c + 1) _ _
      (chainT_length prf password salt hp (c + 1) i) (hp _ _)]
  rfl

/-- Invariant of the `PBKDF2` block loop. -/
theorem pbkdf2_fold_inv (prf : List Nat → List Nat → List Nat)
    (password salt : List Nat) (hp : PrfLen prf) (c : Nat) :
    ∀ k : Nat,
      (List.range k).foldl
        (fun (Ta : List Nat × List Nat) i =>
          let T := PBKDF2_F_core prf Ta.1 password salt c i
          (T, Ta.2 ++ T)) (List.replicate 20 0, []) =
      (chainT prf password salt (c + 1) k,
        ((List.range k).map
          (fun i => chainT prf password salt (c + 1) (i + 1))).flatten)
  | 0 => rfl
  | k + 1 => by
    rw [List.range_succ, List.foldl_append, List.foldl_cons, List.foldl_nil,
      pbkdf2_fold_inv prf password salt hp c k]
    simp only [List.map_append, List.map_cons, List.map_nil,
      List.flatten_append, List.flatten_cons, List.flatten_nil,
      List.append_nil]
    rw [PBKDF2_F_core_chain prf password salt hp c k]

/-- Full characterization of the implemented `PBKDF2` on valid inputs: the
output is the truncated concatenation of XOR-chained blocks, each built from
`c + 1` PRF rounds with 0-based block indices. -/
theorem PBKDF2_eq_chained (prf : List Nat → List Nat → List Nat)
    (password salt : List Nat) (c dkLen : Nat) (hp : PrfLen prf)
    (hpw : password ≠ []) (hs : salt ≠ []) (hc : c ≠ 0) (hd : dkLen ≠ 0) :
    PBKDF2 prf password salt c dkLen =
      some ((((List.range (dkLen / 20 + if dkLen % 20 = 0 then 0 else 1)).map
        (fun i => chainT prf password salt (c + 1) (i + 1))).flatten).take dkLen) := by
  simp only [PBKDF2]
  rw [if_neg (by simp [hpw, hs, hc, hd]), pbkdf2_fold_inv prf password salt hp c]

/-- `PBKDF2` with the repository's parameters (`c` iterations,
`PRP_KEY_SIZE = 16` bytes of output) succeeds on non-empty inputs and yields
a 16-byte derived key. -/
theorem pbkdf2_sixteen (prf : List Nat → List Nat → List Nat)
    (password salt : List Nat) (c : Nat) (hp : PrfLen prf)
    (hpw : password ≠ []) (hs : salt ≠ []) (hc : c ≠ 0) :
    PBKDF2 prf password salt c 16 =
      some ((chainT prf password salt (c + 1) 1).take 16) ∧
      ((chainT prf password salt (c + 1) 1).take 16).length = 16 := by
  constructor
  · rw [PBKDF2_eq_chained prf password salt c 16 hp hpw hs hc (by norm_num)]
    norm_num [List.range_succ]
  · rw [List.length_take, chainT_length prf password salt hp (c + 1) 1]
    norm_num

/-! ## Helper lemmas about the key store -/

theorem beToNat_append_one (xs : List Nat) (b : Nat) :
    beToNat (xs ++ [b]) = beToNat xs * 256 + b := by
  simp [beToNat, List.foldl_append]

theorem beToNat_natToBE : ∀ n : Nat, beToNat (natToBE n) = n
  | 0 => by simp [natToBE, beToNat]
  | n + 1 => by
    have he : natToBE (n + 1) = natToBE ((n + 1) / 256) ++ [(n + 1) % 256] := by
      simp only [natToBE]
    have ih := beToNat_natToBE ((n + 1) / 256)
    rw [he, beToNat_append_one, ih]
    omega
termination_by n => n
decreasing_by simp_wf; omega

/-- Reduction of `write_pdp_keypair` once its PBKDF2 and key-wrap calls are
known to succeed and the generator is nonzero. -/
theorem write_full_reduce {RSA Blob : Type} (P : KSPrims RSA Blob)
    (key : PDP_key RSA) (password salt dk c : List Nat)
    (hdk : PBKDF2 P.prf password salt 10000 16 = some dk)
    (hwrap : nist_key_wrap P.aesEnc
      (key.v.take P.prfKeySize ++ List.replicate (32 - P.prfKeySize) 0) dk =
        some c)
    (hng : ¬key.g = 0) :
    write_pdp_keypair P key password salt =
      some (⟨P.pemWritePriv key.rsa password, salt, c⟩,
        ⟨P.pemWritePub key.rsa, (natToBE key.g).length, natToBE key.g⟩) := by
  simp only [write_pdp_keypair, write_pdp_keypair_full, hdk, hwrap]
  rw [if_neg hng]

/-- Success behaviour of `write_pdp_keypair` on a well-formed key: the files
have the documented layout and the wrapped secret unwraps back to the padded
PRF secret under the same derived key. -/
theorem write_pdp_keypair_spec {RSA Blob : Type} (P : KSPrims RSA Blob)
    (key : PDP_key RSA) (password salt : List Nat)
    (hv : key.v.length = P.prfKeySize) (hP32 : P.prfKeySize ≤ 32)
    (hpw : password ≠ []) (hsalt : salt ≠ []) (hg : 0 < key.g)
    (hvb : GoodBytes key.v) (hprf : PrfLen P.prf)
    (hcipher : ∀ kek, ValidKekSize kek →
      BlockCipher (P.aesEnc kek) (P.aesDec kek)) :
    ∃ enc_v,
      write_pdp_keypair P key password salt =
        some (⟨P.pemWritePriv key.rsa password, salt, enc_v⟩,
          ⟨P.pemWritePub key.rsa, (natToBE key.g).length, natToBE key.g⟩) ∧
      PBKDF2 P.prf password salt 10000 16 =
        some ((chainT P.prf password salt 10001 1).take 16) ∧
      nist_key_unwrap P.aesDec enc_v ((chainT P.prf password salt 10001 1).take 16) =
        some (key.v.take P.prfKeySize ++ List.replicate (32 - P.prfKeySize) 0) := by
  obtain ⟨hdk, hdklen⟩ :=
    pbkdf2_sixteen P.prf password salt 10000 hprf hpw hsalt (by norm_num)
  rw [show (10000 : Nat) + 1 = 10001 by norm_num] at hdk hdklen
  have hkek : ValidKekSize ((chainT P.prf password salt 10001 1).take 16) :=
    Or.inl hdklen
  have htk : key.v.take P.prfKeySize = key.v := by
    rw [← hv, List.take_length]
  have hkvlen :
      (key.v.take P.prfKeySize ++ List.replicate (32 - P.prfKeySize) 0).length = 32 := by
    rw [List.length_append, htk, List.length_replicate, hv]
    omega
  have hkvb :
      GoodBytes (key.v.take P.prfKeySize ++ List.replicate (32 - P.prfKeySize) 0) := by
    intro x hx
    rcases List.mem_append.mp hx with hx | hx
    · exact hvb x (List.mem_of_mem_take hx)
    · rw [List.eq_of_mem_replicate hx]
      norm_num
  obtain ⟨c, hwrap, _, hunwrap⟩ := wrap_unwrap_roundtrip P.aesEnc P.aesDec
    (key.v.take P.prfKeySize ++ List.replicate (32 - P.prfKeySize) 0)
    ((chainT P.prf password salt 10001 1).take 16) hkek (by rw [hkvlen])
    hkvb (hcipher _ hkek)
  exact ⟨c, write_full_reduce P key password salt _ c hdk hwrap (by omega), hdk,
    hunwrap⟩

/-- Reduction of `read_pdp_keypair` when every step succeeds. -/
theorem read_full_reduce {RSA Blob : Type} (P : KSPrims RSA Blob)
    (priv : PrivFile Blob) (pub : PubFile Blob) (password dk key_v : List Nat)
    (rsa rpub : RSA)
    (hpem : P.pemReadPriv priv.pem password = some rsa)
    (hchk : P.rsaCheck rsa = true)
    (hdk : PBKDF2 P.prf password priv.salt 10000 16 = some dk)
    (hunwrap : nist_key_unwrap P.aesDec priv.enc_v dk = some key_v)
    (hpub : P.pemReadPub pub.pem = some rpub) :
    read_pdp_keypair P priv pub (some password) =
      some ⟨rsa, key_v.take P.prfKeySize, beToNat (pub.gen.take pub.gen_size)⟩ := by
  simp only [read_pdp_keypair, read_pdp_keypair_full, hpem, hchk, if_true, hdk,
    hunwrap, hpub]

/-- Reduction of `read_pdp_keypair` when the PEM private key fails to
decrypt (`PEM_read_PrivateKey` returns NULL, `pdp-keys.c:438-439`). -/
theorem read_reject_reduce {RSA Blob : Type} (P : KSPrims RSA Blob)
    (priv : PrivFile Blob) (pub : PubFile Blob) (password : List Nat)
    (hrej : P.pemReadPriv priv.pem password = none) :
    read_pdp_keypair P priv pub (some password) = none := by
  simp only [read_pdp_keypair, read_pdp_keypair_full, hrej]

/-! ## Claim theorems -/

/-- C1: KeyStore round-trip — for every generated PDP key (PRF secret of
`PRF_KEY_SIZE` bytes, nonzero generator) and every non-empty passphrase,
persisting with `write_pdp_keypair` and loading with `read_pdp_keypair`
under the same passphrase returns a key whose RSA structure, generator `g`
and PRF secret `v` equal the original bit for bit.  The contracts of the
external OpenSSL primitives appear as hypotheses: PEM decryption inverts
PEM encryption under the same passphrase, AES decryption inverts AES
encryption, HMAC-SHA1 outputs 20 bytes, the public PEM key reads back, and
the key passes `RSA_check_key`. -/
theorem keystore_roundtrip {RSA Blob : Type} (P : KSPrims RSA Blob)
    (key : PDP_key RSA) (password salt : List Nat) (rpub : RSA)
    (hv : key.v.length = P.prfKeySize) (hP32 : P.prfKeySize ≤ 32)
    (hpw : password ≠ []) (hsalt : salt ≠ []) (hg : 0 < key.g)
    (hvb : GoodBytes key.v) (hprf : PrfLen P.prf)
    (hcipher : ∀ kek, ValidKekSize kek →
      BlockCipher (P.aesEnc kek) (P.aesDec kek))
    (hpem : P.pemReadPriv (P.pemWritePriv key.rsa password) password =
      some key.rsa)
    (hchk : P.rsaCheck key.rsa = true)
    (hpub : P.pemReadPub (P.pemWritePub key.rsa) = some rpub) :
    ∃ priv pub, write_pdp_keypair P key password salt = some (priv, pub) ∧
      read_pdp_keypair P priv pub (some password) = some key := by
  obtain ⟨enc_v, hwrite, hdk, hunwrap⟩ :=
    write_pdp_keypair_spec P key password salt hv hP32 hpw hsalt hg hvb hprf
      hcipher
  refine ⟨_, _, hwrite, ?_⟩
  have hr := read_full_reduce P
    ⟨P.pemWritePriv key.rsa password, salt, enc_v⟩
    ⟨P.pemWritePub key.rsa, (natToBE key.g).length, natToBE key.g⟩
    password _ _ key.rsa rpub hpem hchk hdk hunwrap hpub
  rw [hr]
  have h1 : ((key.v.take P.prfKeySize ++
      List.replicate (32 - P.prfKeySize) 0).take P.prfKeySize) = key.v := by
    have hlen : (key.v.take P.prfKeySize).length = P.prfKeySize := by
      rw [List.length_take, hv]
      omega
    rw [List.take_left' hlen, ← hv, List.take_length]
  show some ⟨key.rsa,
      (key.v.take P.prfKeySize ++
        List.replicate (32 - P.prfKeySize) 0).take P.prfKeySize,
      beToNat ((natToBE key.g).take (natToBE key.g).length)⟩ = some key
  rw [h1, List.take_length, beToNat_natToBE]

/-- Witness for C1: round-trip on a concrete key, passphrase and salt. -/
theorem keystore_roundtrip_witness :
    ∃ priv pub,
      write_pdp_keypair toyPrims toyKey [9] (List.replicate 20 2) =
        some (priv, pub) ∧
      read_pdp_keypair toyPrims priv pub (some [9]) = some toyKey :=
  keystore_roundtrip toyPrims toyKey [9] (List.replicate 20 2) 5
    (by decide) (by decide) (by decide) (by decide) (by decide) (by decide)
    (fun _ _ => by simp [toyPrims])
    (fun _ _ b hb hg => ⟨hb, hg, rfl⟩)
    (by decide) (by decide) (by decide)

/-- C6: wrong-passphrase rejection — a key persisted under passphrase `p1`
fails to load under any `p2 ≠ p1`: given the OpenSSL PEM contract that
decryption under a wrong passphrase fails (`PEM_read_PrivateKey` returns
NULL), `read_pdp_keypair` returns NULL and never a key. -/
theorem keystore_wrong_passphrase {RSA Blob : Type} (P : KSPrims RSA Blob)
    (key : PDP_key RSA) (p1 p2 salt : List Nat) (hne : p2 ≠ p1)
    (hv : key.v.length = P.prfKeySize) (hP32 : P.prfKeySize ≤ 32)
    (hpw : p1 ≠ []) (hsalt : salt ≠ []) (hg : 0 < key.g)
    (hvb : GoodBytes key.v) (hprf : PrfLen P.prf)
    (hcipher : ∀ kek, ValidKekSize kek →
      BlockCipher (P.aesEnc kek) (P.aesDec kek))
    (hrej : P.pemReadPriv (P.pemWritePriv key.rsa p1) p2 = none) :
    ∃ priv pub, write_pdp_keypair P key p1 salt = some (priv, pub) ∧
      read_pdp_keypair P priv pub (some p2) = none := by
  obtain ⟨enc_v, hwrite, _, _⟩ :=
    write_pdp_keypair_spec P key p1 salt hv hP32 hpw hsalt hg hvb hprf hcipher
  exact ⟨_, _, hwrite, read_reject_reduce P _ _ p2 hrej⟩

/-- Witness for C6: persisting under `[9]` and loading under `[8]` fails. -/
theorem keystore_wrong_passphrase_witness :
    ∃ priv pub,
      write_pdp_keypair toyPrims toyKey [9] (List.replicate 20 2) =
        some (priv, pub) ∧
      read_pdp_keypair toyPrims priv pub (some [8]) = none :=
  keystore_wrong_passphrase toyPrims toyKey [9] [8] (List.replicate 20 2)
    (by decide) (by decide) (by decide) (by decide) (by decide) (by decide)
    (by decide) (fun _ _ => by simp [toyPrims])
    (fun _ _ b hb hg => ⟨hb, hg, rfl⟩) (by decide)

/-- C2: KeyWrap round-trip — for every key of 128/192/256 bits and every
128/192/256-bit KEK, `nist_key_unwrap` of `nist_key_wrap` recovers exactly
the original key bytes, and the wrapped ciphertext is exactly
`key_size + 8` bytes, given that the AES block primitive decrypts what it
encrypts. -/
theorem keywrap_roundtrip (aesEnc aesDec : List Nat → List Nat → List Nat)
    (key kek : List Nat)
    (hkey : key.length = 16 ∨ key.length = 24 ∨ key.length = 32)
    (hkek : ValidKekSize kek) (hb : GoodBytes key)
    (hc : BlockCipher (aesEnc kek) (aesDec kek)) :
    ∃ c, nist_key_wrap aesEnc key kek = some c ∧ c.length = key.length + 8 ∧
      nist_key_unwrap aesDec c kek = some key :=
  wrap_unwrap_roundtrip aesEnc aesDec key kek hkek
    (by rcases hkey with h | h | h <;> omega) hb hc

/-- Witness for C2 on a concrete 128-bit key and KEK. -/
theorem keywrap_roundtrip_witness :
    ∃ c, nist_key_wrap (fun _ b => b) (List.replicate 16 3)
        (List.replicate 16 0) = some c ∧
      c.length = (List.replicate 16 3 : List Nat).length + 8 ∧
      nist_key_unwrap (fun _ b => b) c (List.replicate 16 0) =
        some (List.replicate 16 3) :=
  keywrap_roundtrip (fun _ b => b) (fun _ b => b) (List.replicate 16 3)
    (List.replicate 16 0) (by decide) (by decide) (by decide)
    (fun _ hb hg => ⟨hb, hg, rfl⟩)

/-- C4 counterexample: `nist_key_wrap` accepts a 9-byte key — a size that is
not a multiple of 8 bytes — and returns a ciphertext instead of failing. -/
theorem keywrap_size_check_cex :
    (nist_key_wrap (fun _ b => b) (List.replicate 9 0)
      (List.replicate 16 0)).isSome = true := by decide

/-- C4 (amended): neither `nist_key_wrap` nor `nist_key_unwrap` validates
that the key size is a multiple of 8 bytes.  Wrap succeeds for every key
under a valid KEK and silently ignores the trailing `key_size mod 8` bytes
(it equals the wrap of the truncated key); the only size-related failure in
either direction is an invalid KEK size. -/
theorem keywrap_size_unchecked (aesEnc aesDec : List Nat → List Nat → List Nat)
    (key kek : List Nat) (hkek : ValidKekSize kek) :
    (nist_key_wrap aesEnc key kek).isSome = true ∧
    nist_key_wrap aesEnc key kek =
      nist_key_wrap aesEnc (key.take (8 * (key.length / 8))) kek ∧
    ∀ kek2 : List Nat, ¬ValidKekSize kek2 →
      nist_key_wrap aesEnc key kek2 = none ∧
      nist_key_unwrap aesDec key kek2 = none := by
  refine ⟨?_, ?_, ?_⟩
  · simp [nist_key_wrap, if_pos hkek]
  · have hlen : (key.take (8 * (key.length / 8))).length =
        8 * (key.length / 8) := by
      rw [List.length_take]
      have := Nat.div_mul_le_self key.length 8
      omega
    have hn : (key.take (8 * (key.length / 8))).length / 8 = key.length / 8 := by
      rw [hlen, Nat.mul_div_cancel_left _ (by norm_num : (0 : Nat) < 8)]
    simp only [nist_key_wrap, hn, List.take_take, Nat.min_self]
  · intro kek2 h2
    constructor
    · simp [nist_key_wrap, if_neg h2]
    · simp [nist_key_unwrap, if_neg h2]

/-- Witness for C4 (amended) at a 9-byte key. -/
theorem keywrap_size_unchecked_witness :
    (nist_key_wrap (fun _ b => b) (List.replicate 9 0)
      (List.replicate 16 0)).isSome = true ∧
    nist_key_wrap (fun _ b => b) (List.replicate 9 0) (List.replicate 16 0) =
      nist_key_wrap (fun _ b => b)
        ((List.replicate 9 0).take
          (8 * ((List.replicate 9 0 : List Nat).length / 8)))
        (List.replicate 16 0) ∧
    ∀ kek2 : List Nat, ¬ValidKekSize kek2 →
      nist_key_wrap (fun _ b => b) (List.replicate 9 0) kek2 = none ∧
      nist_key_unwrap (fun _ b => b) (List.replicate 9 0) kek2 = none :=
  keywrap_size_unchecked (fun _ b => b) (fun _ b => b) (List.replicate 9 0)
    (List.replicate 16 0) (by decide)

/-- C5: unwrap integrity check — whenever the KEK size is valid (so the six
unwrap rounds run), `nist_key_unwrap` succeeds exactly when the recovered
integrity value equals eight `0xA6` bytes; on mismatch it returns NULL and
no plaintext. -/
theorem unwrap_integrity_iff (aesDec : List Nat → List Nat → List Nat)
    (enckey kek : List Nat) (hkek : ValidKekSize kek) :
    (nist_key_unwrap aesDec enckey kek).isSome = true ↔
      unwrapRecoveredA aesDec enckey kek = List.replicate 8 0xA6 := by
  simp only [nist_key_unwrap, unwrapRecoveredA, if_pos hkek]
  by_cases h : (unwrapRounds (aesDec kek) (enckey.length / 8 - 1)
      (enckey.take 8,
        chunk8 ((enckey.drop 8).take (8 * (enckey.length / 8 - 1))))).1 =
      List.replicate 8 0xA6
  · simp [h]
  · simp [h]

/-- Witness for C5 at a concrete ciphertext and KEK. -/
theorem unwrap_integrity_iff_witness :
    (nist_key_unwrap (fun _ b => b) (List.replicate 16 0)
      (List.replicate 16 0)).isSome = true ↔
      unwrapRecoveredA (fun _ b => b) (List.replicate 16 0)
        (List.replicate 16 0) = List.replicate 8 0xA6 :=
  unwrap_integrity_iff (fun _ b => b) (List.replicate 16 0)
    (List.replicate 16 0) (by decide)

/-- C3 counterexample: already with iteration count `c = 1` the implemented
`PBKDF2` differs from the standard construction `PBKDF2_std` at a concrete
PRF, password and salt — the code XOR-accumulates `c+1` rounds and indexes
blocks from 0, so it cannot match standard reference vectors. -/
theorem pbkdf2_nonstandard_cex :
    PBKDF2 (fun _ m => List.replicate 20 (m.length % 256)) [0] [0] 1 20 ≠
      some (PBKDF2_std (fun _ m => List.replicate 20 (m.length % 256))
        [0] [0] 1 20) := by
  decide

/-- C3 (amended): for every 20-byte PRF and non-empty inputs, each output
block of `PBKDF2` is the XOR-accumulation of exactly `c + 1` HMAC rounds —
the initial PRF output, the `c` loop rounds, and one extra final XOR — with
block indices starting at 0 (not 1) and the accumulator chained across
blocks; and the function fails (returns NULL) exactly when password, salt,
iteration count or output length is empty/zero. -/
theorem pbkdf2_amended (prf : List Nat → List Nat → List Nat)
    (password salt : List Nat) (c dkLen : Nat) (hp : PrfLen prf) :
    (password ≠ [] → salt ≠ [] → c ≠ 0 → dkLen ≠ 0 →
      PBKDF2 prf password salt c dkLen =
        some ((((List.range
            (dkLen / 20 + if dkLen % 20 = 0 then 0 else 1)).map
          (fun i => chainT prf password salt (c + 1) (i + 1))).flatten).take
            dkLen)) ∧
    ((PBKDF2 prf password salt c dkLen).isSome = true ↔
      ¬(password = [] ∨ salt = [] ∨ c = 0 ∨ dkLen = 0)) := by
  constructor
  · exact fun h1 h2 h3 h4 =>
      PBKDF2_eq_chained prf password salt c dkLen hp h1 h2 h3 h4
  · by_cases hg : password = [] ∨ salt = [] ∨ c = 0 ∨ dkLen = 0
    · simp [PBKDF2, hg]
    · simp [PBKDF2, hg]

/-- Witness for C3 (amended) at a concrete PRF and inputs. -/
theorem pbkdf2_amended_witness :
    (([1] : List Nat) ≠ [] → ([1] : List Nat) ≠ [] → (1 : Nat) ≠ 0 →
      (20 : Nat) ≠ 0 →
      PBKDF2 (fun _ _ => List.replicate 20 0) [1] [1] 1 20 =
        some ((((List.range ((20 : Nat) / 20 +
            if (20 : Nat) % 20 = 0 then 0 else 1)).map
          (fun i => chainT (fun _ _ => List.replicate 20 0) [1] [1] (1 + 1)
            (i + 1))).flatten).take 20)) ∧
    ((PBKDF2 (fun _ _ => List.replicate 20 0) [1] [1] 1 20).isSome = true ↔
      ¬(([1] : List Nat) = [] ∨ ([1] : List Nat) = [] ∨ (1 : Nat) = 0 ∨
        (20 : Nat) = 0)) :=
  pbkdf2_amended (fun _ _ => List.replicate 20 0) [1] [1] 1 20
    (fun _ _ => by simp)

/-- Trace shape of `fromFiles` on an uncancelled context with successful
setup: the three Info logs come first, then everything the entry loop
emits. -/
theorem fromFiles_trace_uncancelled (tagRes : Nat → Int)
    (addRes finalizeRes : Nat → Except Nat Nat) (keyPath tagPath pw : Nat)
    (iterErr : Option Nat) (entries : List Nat) :
    (fromFiles tagRes addRes finalizeRes false none keyPath tagPath pw iterErr
      entries).1 =
      AEvent.logKeyPath keyPath :: AEvent.logTagPath tagPath ::
        AEvent.logPassword pw ::
        (fromFilesLoop tagRes addRes false tagPath keyPath pw none
          entries).1 := by
  rcases hL : fromFilesLoop tagRes addRes false tagPath keyPath pw none entries
    with ⟨evs, r⟩
  rcases r with r | lastRoot
  · simp [fromFiles, hL]
  · rcases iterErr with _ | e
    · rcases lastRoot with _ | root
      · simp [fromFiles, hL]
      · rcases hF : finalizeRes root with e | cl <;> simp [fromFiles, hL, hF]
    · simp [fromFiles, hL]

/-- Trace shape of `fromFile` on an uncancelled context with successful
setup. -/
theorem fromFile_trace_shape (tagRes : Nat → Int)
    (addRes finalizeRes : Nat → Except Nat Nat)
    (keyPath tagPath pw name : Nat) :
    ∃ rest,
      (fromFile tagRes addRes finalizeRes false none keyPath tagPath pw
        name).1 =
      AEvent.logKeyPath keyPath :: AEvent.logTagPath tagPath ::
        AEvent.logPassword pw :: rest := by
  by_cases h1 : tagRes name = 1
  · exact ⟨[AEvent.tagCall name tagPath keyPath pw, AEvent.logTagError name],
      by simp [fromFile, h1]⟩
  · rcases hA : addRes name with e | root
    · exact ⟨[AEvent.tagCall name tagPath keyPath pw,
        AEvent.logAddFile name, AEvent.addPin name],
        by simp [fromFile, h1, hA]⟩
    · rcases hF : finalizeRes root with e | cl
      · exact ⟨[AEvent.tagCall name tagPath keyPath pw,
          AEvent.logAddFile name, AEvent.addPin name],
          by simp [fromFile, h1, hA, hF]⟩
      · exact ⟨[AEvent.tagCall name tagPath keyPath pw,
          AEvent.logAddFile name, AEvent.addPin name],
          by simp [fromFile, h1, hA, hF]⟩

/-- `AddAllAndPin` is only reached inside the entry loop for names whose
tagging did not return 1. -/
theorem fromFilesLoop_addPin (tagRes : Nat → Int)
    (addRes : Nat → Except Nat Nat) (cancelled : Bool)
    (tagPath keyPath pw : Nat) :
    ∀ (entries : List Nat) (lastRoot : Option Nat) (g : Nat),
      AEvent.addPin g ∈
        (fromFilesLoop tagRes addRes cancelled tagPath keyPath pw lastRoot
          entries).1 →
      tagRes g ≠ 1
  | [], _, g => by simp [fromFilesLoop]
  | name :: rest, lastRoot, g => by
    intro hmem
    by_cases h1 : tagRes name = 1
    · simp [fromFilesLoop, h1] at hmem
    · cases hc : cancelled
      · subst hc
        rcases hA : addRes name with e | root
        · simp [fromFilesLoop, h1, hA] at hmem
          subst hmem
          exact h1
        · simp [fromFilesLoop, h1, hA] at hmem
          rcases hmem with rfl | hmem
          · exact h1
          · exact fromFilesLoop_addPin tagRes addRes false tagPath keyPath pw
              rest (some root) g hmem
      · subst hc
        simp [fromFilesLoop, h1] at hmem

/-- C8: tagging failure aborts the add — whenever `pdp_tag_file` reports
failure (returns 1) for a file, `Adder.FromFiles` and `Adder.FromFile`
return before `AddAllAndPin`, so `AddAllAndPin` is never invoked for a file
whose tagging failed and no such file is stored without a tag. -/
theorem tagging_failure_aborts (tagRes : Nat → Int)
    (addRes finalizeRes : Nat → Except Nat Nat) (cancelled : Bool)
    (setupErr iterErr : Option Nat) (keyPath tagPath pw name : Nat)
    (entries : List Nat) (g : Nat) :
    (AEvent.addPin g ∈ (fromFiles tagRes addRes finalizeRes cancelled setupErr
        keyPath tagPath pw iterErr entries).1 → tagRes g ≠ 1) ∧
    (AEvent.addPin g ∈ (fromFile tagRes addRes finalizeRes cancelled setupErr
        keyPath tagPath pw name).1 → tagRes g ≠ 1) := by
  constructor
  · intro hmem
    cases cancelled
    · rcases setupErr with _ | e
      · rw [fromFiles_trace_uncancelled] at hmem
        simp only [List.mem_cons] at hmem
        rcases hmem with h | h | h | h
        · exact absurd h (by simp)
        · exact absurd h (by simp)
        · exact absurd h (by simp)
        · exact fromFilesLoop_addPin tagRes addRes false tagPath keyPath pw
            entries none g h
      · simp [fromFiles] at hmem
    · simp [fromFiles] at hmem
  · intro hmem
    cases cancelled
    · rcases setupErr with _ | e
      · by_cases h1 : tagRes name = 1
        · simp [fromFile, h1] at hmem
        · rcases hA : addRes name with e | root
          · simp [fromFile, h1, hA] at hmem
            subst hmem
            exact h1
          · rcases hF : finalizeRes root with e | cl
            · simp [fromFile, h1, hA, hF] at hmem
              subst hmem
              exact h1
            · simp [fromFile, h1, hA, hF] at hmem
              subst hmem
              exact h1
      · simp [fromFile] at hmem
    · simp [fromFile] at hmem

/-- Witness for C8: a file whose `AddAllAndPin` ran indeed had a
non-failing tag result. -/
theorem tagging_failure_aborts_witness :
    AEvent.addPin 5 ∈ (fromFiles (fun _ => (0 : Int)) Except.ok Except.ok
      false none 10 11 12 none [5]).1 ∧
    (fun _ => (0 : Int)) 5 ≠ 1 :=
  ⟨by decide,
    (tagging_failure_aborts (fun _ => (0 : Int)) Except.ok Except.ok false
      none none 10 11 12 5 [5] 5).1 (by decide)⟩

/-- C9 (implicit): when `pdp_tag_file` returns 1 and the context is not
cancelled, `Adder.FromFiles` and `Adder.FromFile` return
`(cid.Undef, a.ctx.Err())` = `(cid.Undef, nil)` — no non-nil error reaches
the caller; and only the value 1 is treated as a tagging failure: any other
result proceeds to `AddAllAndPin`. -/
theorem tag_error_produces_nil_error (tagRes : Nat → Int)
    (addRes finalizeRes : Nat → Except Nat Nat) (keyPath tagPath pw : Nat)
    (iterErr : Option Nat) (name1 name2 : Nat)
    (h1 : tagRes name1 = 1) (h2 : tagRes name2 ≠ 1) :
    (fromFile tagRes addRes finalizeRes false none keyPath tagPath pw
      name1).2 = ⟨none, none⟩ ∧
    (fromFiles tagRes addRes finalizeRes false none keyPath tagPath pw iterErr
      [name1]).2 = ⟨none, none⟩ ∧
    AEvent.addPin name2 ∈
      (fromFile tagRes addRes finalizeRes false none keyPath tagPath pw
        name2).1 := by
  refine ⟨?_, ?_, ?_⟩
  · simp [fromFile, h1, ctxErr]
  · simp [fromFiles, fromFilesLoop, h1, ctxErr]
  · rcases hA : addRes name2 with e | root
    · simp [fromFile, h2, hA]
    · rcases hF : finalizeRes root with e | cl <;> simp [fromFile, h2, hA, hF]

/-- Witness for C9 with a tag function failing exactly on file 5. -/
theorem tag_error_produces_nil_error_witness :
    tagToy 5 = 1 ∧ tagToy 6 ≠ 1 ∧
    ((fromFile tagToy Except.ok Except.ok false none 10 11 12 5).2 =
        ⟨none, none⟩ ∧
      (fromFiles tagToy Except.ok Except.ok false none 10 11 12 none [5]).2 =
        ⟨none, none⟩ ∧
      AEvent.addPin 6 ∈
        (fromFile tagToy Except.ok Except.ok false none 10 11 12 6).1) :=
  ⟨by decide, by decide,
    tag_error_produces_nil_error tagToy Except.ok Except.ok 10 11 12 none 5 6
      (by decide) (by decide)⟩

/-- C10 (implicit): the cleartext passphrase is part of the observable
output of loading — `read_pdp_keypair_temp` writes the passphrase to stdout
on every path (before any key derivation, since even derivation-failure
paths carry it), and `Adder.FromFiles`/`Adder.FromFile` log the passphrase
read from the passphrase file at Info level as the third trace event,
before any `pdp_tag_file` call. -/
theorem passphrase_observable {RSA Blob : Type} (P : KSPrims RSA Blob)
    (priv : PrivFile Blob) (pub : PubFile Blob) (pw_in : List Nat)
    (tagRes : Nat → Int) (addRes finalizeRes : Nat → Except Nat Nat)
    (iterErr : Option Nat) (keyPath tagPath pw name : Nat)
    (entries : List Nat) :
    (read_pdp_keypair_temp_full P priv pub pw_in).2.2 = [pw_in] ∧
    (fromFiles tagRes addRes finalizeRes false none keyPath tagPath pw iterErr
        entries).1 =
      AEvent.logKeyPath keyPath :: AEvent.logTagPath tagPath ::
        AEvent.logPassword pw ::
        (fromFilesLoop tagRes addRes false tagPath keyPath pw none
          entries).1 ∧
    (∃ rest,
      (fromFile tagRes addRes finalizeRes false none keyPath tagPath pw
        name).1 =
      AEvent.logKeyPath keyPath :: AEvent.logTagPath tagPath ::
        AEvent.logPassword pw :: rest) := by
  refine ⟨?_, fromFiles_trace_uncancelled tagRes addRes finalizeRes keyPath
    tagPath pw iterErr entries,
    fromFile_trace_shape tagRes addRes finalizeRes keyPath tagPath pw name⟩
  unfold read_pdp_keypair_temp_full
  repeat' split
  all_goals rfl

/-- Possible ghost traces of `write_pdp_keypair`. -/
theorem write_trace_cases {RSA Blob : Type} (P : KSPrims RSA Blob)
    (key : PDP_key RSA) (password salt : List Nat) :
    (write_pdp_keypair_full P key password salt).2 = [] ∨
    (write_pdp_keypair_full P key password salt).2 =
      [MemOp.alloc 2, MemOp.releaseZeroed 2] := by
  unfold write_pdp_keypair_full
  cases hP : PBKDF2 P.prf password salt 10000 16 with
  | none => simp
  | some dk =>
    cases hW : nist_key_wrap P.aesEnc
        (key.v.take P.prfKeySize ++ List.replicate (32 - P.prfKeySize) 0)
        dk with
    | none => simp [hW]
    | some ev => by_cases hg : key.g = 0 <;> simp [hW, hg]

/-- Zeroing discipline of `pdp_create_new_keypair`, by induction over the
terminal's passphrase attempts. -/
theorem create_trace_discipline {RSA Blob : Type} (P : KSPrims RSA Blob)
    (genKey : Option (PDP_key RSA)) (salt : List Nat) :
    ∀ attempts : List (List Nat × List Nat),
      zeroFollowsFill 0
        (pdp_create_new_keypair_full P genKey salt attempts).2 = true ∧
      zeroFollowsFill 1
        (pdp_create_new_keypair_full P genKey salt attempts).2 = true ∧
      releaseFollowsAlloc 2
        (pdp_create_new_keypair_full P genKey salt attempts).2 = true
  | [] => ⟨rfl, rfl, rfl⟩
  | (p1, p2) :: rest => by
    obtain ⟨ih0, ih1, ih2⟩ := create_trace_discipline P genKey salt rest
    by_cases hp : p1 ≠ p2
    · simp only [pdp_create_new_keypair_full, if_pos hp]
      refine ⟨?_, ?_, ?_⟩ <;>
        simp [zeroFollowsFill, releaseFollowsAlloc, ih0, ih1, ih2]
    · simp only [pdp_create_new_keypair_full, if_neg hp]
      rcases genKey with _ | key
      · exact ⟨rfl, rfl, rfl⟩
      · rcases hw1 : (write_pdp_keypair_full P key p1 salt).1 with _ | files <;>
          rcases write_trace_cases P key p1 salt with hw2 | hw2 <;>
          simp only [hw1, hw2] <;> exact ⟨rfl, rfl, rfl⟩

/-- C7: secret zeroing invariant — on every exit path of key loading
(`read_pdp_keypair`, `read_pdp_keypair_temp`) and key generation
(`pdp_create_new_keypair`), every cleartext passphrase buffer the function
fills is zeroed (`memset`) before the function returns, and every
derived-key (KEK) buffer it allocates is zeroed before release (`sfree`),
as recorded by the ghost memory traces of the embedding. -/
theorem secret_zeroing_discipline {RSA Blob : Type} (P : KSPrims RSA Blob)
    (priv : PrivFile Blob) (pub : PubFile Blob) (pwOpt : Option (List Nat))
    (pw_in : List Nat) (genKey : Option (PDP_key RSA)) (salt : List Nat)
    (attempts : List (List Nat × List Nat)) :
    (zeroFollowsFill 0 (read_pdp_keypair_full P priv pub pwOpt).2 = true ∧
      releaseFollowsAlloc 2 (read_pdp_keypair_full P priv pub pwOpt).2 =
        true) ∧
    (zeroFollowsFill 0 (read_pdp_keypair_temp_full P priv pub pw_in).2.1 =
        true ∧
      releaseFollowsAlloc 2
        (read_pdp_keypair_temp_full P priv pub pw_in).2.1 = true) ∧
    (zeroFollowsFill 0 (pdp_create_new_keypair_full P genKey salt attempts).2 =
        true ∧
      zeroFollowsFill 1
        (pdp_create_new_keypair_full P genKey salt attempts).2 = true ∧
      releaseFollowsAlloc 2
        (pdp_create_new_keypair_full P genKey salt attempts).2 = true) := by
  refine ⟨⟨?_, ?_⟩, ⟨?_, ?_⟩, create_trace_discipline P genKey salt attempts⟩
  · unfold read_pdp_keypair_full
    repeat' split
    all_goals rfl
  · unfold read_pdp_keypair_full
    repeat' split
    all_goals rfl
  · unfold read_pdp_keypair_temp_full
    repeat' split
    all_goals rfl
  · unfold read_pdp_keypair_temp_full
    repeat' split
    all_goals rfl

end PdpSpec
